import Mathlib

/-!
Verification development for the HEIC image converter single-page app
(`src/App.jsx`, current revision `part_000`).  The React component's pipeline
state is embedded shallowly: JS strings become `List Char`, the component's
`useState` cells become fields of `AppState`, and the browser APIs
`URL.createObjectURL` / `URL.revokeObjectURL` are modelled by a fresh-handle
allocator together with event traces recording every create and revoke call.
The external codec (`heic2any`) and archive writer (`JSZip.generateAsync`)
are asynchronous fallible black boxes; they are passed in as oracle
functions returning `Option` (quality hints 0.2 / 0.9 appear as the naturals
2 / 9, in tenths).  The single-threaded cooperative scheduling of the app
lets each async operation be modelled as a sequential state transformer.
The cleanup of the `useEffect` over `[heicFiles, convertedImages]` (lines
15-20) is modelled by `effectCleanup`; `convertImagesRun` linearizes a
conversion run together with the two cleanup firings that its dependency
changes trigger.
-/

namespace ImgConv

/-- JS strings, as sequences of characters. -/
abbrev JStr := List Char

/-- A candidate `File` object: display name, declared MIME type, byte size. -/
structure JFile where
  name : JStr
  type : JStr
  size : Nat
deriving DecidableEq

/-- An entry of the `heicFiles` state list: the original file plus the
object-URL handle of its generated thumbnail (`null` when thumbnail
generation failed). -/
structure Item where
  file : JFile
  thumbnail : Option Nat
deriving DecidableEq

/-- An entry of the `convertedImages` state list, as pushed by
`convertImages`. Blobs are abstract tokens (`Nat`). -/
structure ConvertedImage where
  id : JStr
  name : JStr
  url : Nat
  blob : Nat
  originalFile : JFile
deriving DecidableEq

/-- The component's `useState` cells. -/
structure AppState where
  heicFiles : List Item
  convertedImages : List ConvertedImage
  outputFormat : JStr
  loading : Bool
  error : Option JStr
deriving DecidableEq

/-- Full system state: component state plus the object-URL manager.
`nextUrl` is the fresh-handle allocator; `created` records every handle
returned by `URL.createObjectURL`; `revoked` records the argument of every
`URL.revokeObjectURL` call (`none` models passing `null`); `timeCtr` counts
`Date.now()` calls so a time oracle can supply timestamps. -/
structure Sys where
  app : AppState
  nextUrl : Nat
  created : List Nat
  revoked : List (Option Nat)
  timeCtr : Nat
deriving DecidableEq

/-- Oracle for the external `heic2any` codec: source file, target MIME type,
quality hint in tenths; `none` is a rejected promise. -/
abbrev Heic2Any := JFile → JStr → Nat → Option Nat

/-- Oracle for `zip.generateAsync` over the name/blob entries added by
`zip.file`; `none` is a rejected promise. -/
abbrev ZipGen := List (JStr × Nat) → Option Nat

/-- Model of `URL.createObjectURL`: allocates a fresh handle and records the
create call. -/
def createObjectURL (s : Sys) : Nat × Sys :=
  (s.nextUrl,
   { s with nextUrl := s.nextUrl + 1, created := s.created ++ [s.nextUrl] })

/-- Model of `URL.revokeObjectURL`: records the call with its argument
(`none` when the code passes a `null` thumbnail). -/
def revokeObjectURL (h : Option Nat) (s : Sys) : Sys :=
  { s with revoked := s.revoked ++ [h] }

/-- Model of `setError`. -/
def setError (e : Option JStr) (s : Sys) : Sys :=
  { s with app := { s.app with error := e } }

/-- The `MAX_FILE_SIZE_MB` constant. -/
def MAX_FILE_SIZE_MB : Nat := 25

/-- The thumbnail target MIME type `image/jpeg`. -/
def mimeJpeg : JStr := ("image/jpeg".toList)

/-- The `image/` prefix of the conversion target MIME type. -/
def imageSlash : JStr := ("image/".toList)

/-- The MIME allow-list of `handleFileChange`
(`['image/heic', 'image/heif', 'image/x-heic', 'image/x-heif']`). -/
def allowedTypes : List JStr :=
  [("image/heic".toList), ("image/heif".toList),
   ("image/x-heic".toList), ("image/x-heif".toList)]

/-- Error message for a file of unsupported type. -/
def unsupportedMsg (f : JFile) : JStr :=
  ("Unsupported file type: ".toList) ++ f.name ++
    (". Only HEIC/HEIF files are allowed.".toList)

/-- Error message for an oversized file (the source interpolates
`MAX_FILE_SIZE_MB = 25`). -/
def tooLargeMsg (f : JFile) : JStr :=
  ("File ".toList) ++ f.name ++
    (" is too large. Max file size is 25MB.".toList)

/-- The rejection reason produced by the filter callback of
`handleFileChange`, `none` when the file passes both checks. -/
def validateError (f : JFile) : Option JStr :=
  if f.type ∉ allowedTypes then some (unsupportedMsg f)
  else if f.size > MAX_FILE_SIZE_MB * 1024 * 1024 then some (tooLargeMsg f)
  else none

/-- The filter predicate of `handleFileChange`: the file is kept iff its
type is in the allow-list and its size does not exceed the limit. -/
def fileAccepted (f : JFile) : Bool :=
  decide (f.type ∈ allowedTypes) &&
    decide (f.size ≤ MAX_FILE_SIZE_MB * 1024 * 1024)

/-- The `acceptedFiles.filter` pass of `handleFileChange`: returns the kept
files in order, threading the error cell (each rejection overwrites it, so
the last rejection wins). -/
def runValidate : List JFile → Option JStr → List JFile × Option JStr
  | [], e => ([], e)
  | f :: rest, e =>
    match validateError f with
    | some m => runValidate rest (some m)
    | none =>
      let r := runValidate rest e
      (f :: r.1, r.2)

/-- The `Promise.all(newFiles.map ...)` thumbnail pass of `handleFileChange`
(linearized in list order, which the single-threaded model permits).  On
codec success the source logs two diagnostic object URLs
(`URL.createObjectURL(file)` and `URL.createObjectURL(thumbnailBlob)` inside
`console.log`) and then creates a third handle that is stored as the item's
thumbnail; on failure the item carries `thumbnail = null`. -/
def thumbLoop (h2a : Heic2Any) : List JFile → Sys → List Item × Sys
  | [], s => ([], s)
  | f :: rest, s =>
    match h2a f mimeJpeg 2 with
    | some _thumbnailBlob =>
      let s1 := (createObjectURL s).2
      let s2 := (createObjectURL s1).2
      let u := (createObjectURL s2).1
      let s3 := (createObjectURL s2).2
      let r := thumbLoop h2a rest s3
      ({ file := f, thumbnail := some u } :: r.1, r.2)
    | none =>
      let r := thumbLoop h2a rest s
      ({ file := f, thumbnail := none } :: r.1, r.2)

/-- Model of `handleFileChange`: clear the error, filter the candidates
(rejections set the error, last one wins), build thumbnails for the kept
files, and append them to `heicFiles`. -/
def handleFileChange (h2a : Heic2Any) (acceptedFiles : List JFile)
    (s : Sys) : Sys :=
  let s0 := setError none s
  let v := runValidate acceptedFiles none
  let s1 := match v.2 with
    | some m => setError (some m) s0
    | none => s0
  let r := thumbLoop h2a v.1 s1
  { r.2 with app := { r.2.app with heicFiles := r.2.app.heicFiles ++ r.1 } }

/-- Model of the Clear All button's onClick: revoke every thumbnail handle
(including `null` ones — the call still happens), empty `heicFiles`, revoke
every converted image URL, empty `convertedImages`, clear the error. -/
def clearAll (s : Sys) : Sys :=
  let s1 := s.app.heicFiles.foldl
    (fun acc it => revokeObjectURL it.thumbnail acc) s
  let s2 := { s1 with app := { s1.app with heicFiles := [] } }
  let s3 := s2.app.convertedImages.foldl
    (fun acc img => revokeObjectURL (some img.url) acc) s2
  { s3 with app :=
      { s3.app with convertedImages := [], error := none } }

/-- ASCII lowercasing of a JS string, matching the canonicalization the
`i` regex flag performs on the ASCII pattern `\.(heic|heif)$`. -/
def toLowerStr (s : JStr) : JStr := s.map Char.toLower

/-- Case-insensitive suffix test: the last `ext.length` characters of `s`,
lowercased, spell `ext` (which is given lowercase). -/
def endsWithCI (s ext : JStr) : Bool :=
  decide ((toLowerStr s).reverse.take ext.length = ext.reverse)

/-- Case-sensitive suffix test. -/
def endsWith (s ext : JStr) : Bool :=
  decide (s.reverse.take ext.length = ext.reverse)

/-- Whether the regex `\.(heic|heif)$/i` matches `name`: the name ends,
case-insensitively, in `.heic` or `.heif`. -/
def hasSourceExt (name : JStr) : Bool :=
  endsWithCI name (".heic".toList) || endsWithCI name (".heif".toList)

/-- The name with its trailing five characters (the matched `.heic`/`.heif`)
removed. -/
def stripSourceExt (name : JStr) : JStr :=
  name.take (name.length - 5)

/-- Model of `name.replace(/\.(heic|heif)$/i, "." + outputFormat)`: when the
anchored pattern matches, the matched five-character suffix is replaced by a
dot and the output format; otherwise the name is returned unchanged. -/
def replaceSourceExt (name fmt : JStr) : JStr :=
  if hasSourceExt name then stripSourceExt name ++ '.' :: fmt else name

/-- Decimal rendering of a `Date.now()` value for the template string of the
converted item's id. -/
def natToJStr (n : Nat) : JStr := (Nat.repr n).toList

/-- The id template `` `${item.file.name}-${Date.now()}` ``. -/
def convId (name : JStr) (t : Nat) : JStr :=
  name ++ ("-".toList) ++ natToJStr t

/-- The per-file failure message of `convertImages`. -/
def failMsg (name : JStr) : JStr :=
  ("Failed to convert ".toList) ++ name ++ (". Please try again.".toList)

/-- The `for (const item of heicFiles)` loop of `convertImages`: on codec
success create an object URL, read `Date.now()` (via the `dateNow` oracle on
the call counter) and push a `ConvertedImage`; on failure set the error to
the per-file message and continue with the next item. -/
def convertLoop (h2a : Heic2Any) (dateNow : Nat → Nat) (fmt : JStr) :
    List Item → Sys → List ConvertedImage × Sys
  | [], s => ([], s)
  | it :: rest, s =>
    match h2a it.file (imageSlash ++ fmt) 9 with
    | some convertedBlob =>
      let url := (createObjectURL s).1
      let s1 := (createObjectURL s).2
      let t := dateNow s1.timeCtr
      let s2 := { s1 with timeCtr := s1.timeCtr + 1 }
      let img : ConvertedImage :=
        { id := convId it.file.name t,
          name := replaceSourceExt it.file.name fmt,
          url := url, blob := convertedBlob, originalFile := it.file }
      let r := convertLoop h2a dateNow fmt rest s2
      (img :: r.1, r.2)
    | none =>
      let r := convertLoop h2a dateNow fmt rest
        (setError (some (failMsg it.file.name)) s)
      (r.1, r.2)

/-- Model of the `convertImages` function body alone: set loading, clear
the error, empty `convertedImages`, run the sequential conversion loop
over `heicFiles`, publish the accumulated list, reset loading.  The body
itself makes no revoke call; the effect cleanups that its two dependency
changes fire are modelled separately, and `convertImagesRun` composes the
body with them for run-level revocation accounting. -/
def convertImages (h2a : Heic2Any) (dateNow : Nat → Nat) (s : Sys) : Sys :=
  let s0 := { s with app :=
    { s.app with loading := true, error := none, convertedImages := [] } }
  let r := convertLoop h2a dateNow s.app.outputFormat s.app.heicFiles s0
  { r.2 with app :=
      { r.2.app with convertedImages := r.1, loading := false } }

/-- The name/blob pairs passed to `zip.file` by `downloadAllImages`. -/
def zipEntries (s : Sys) : List (JStr × Nat) :=
  s.app.convertedImages.map fun img => (img.name, img.blob)

/-- The batch-level failure message of `downloadAllImages`. -/
def zipFailMsg : JStr := ("Failed to create zip file for download.".toList)

/-- Model of `downloadAllImages`: return unchanged when `convertedImages` is
empty; otherwise set loading, feed every converted item's name and blob to
the archive writer, and on success create an object URL for the archive
blob (assigned to the download link and never revoked) or on failure set the
batch error; `finally` resets loading. -/
def downloadAllImages (zipGen : ZipGen) (s : Sys) : Sys :=
  if s.app.convertedImages.length = 0 then s
  else
    let s1 := { s with app := { s.app with loading := true } }
    match zipGen (zipEntries s) with
    | some _content =>
      let s2 := (createObjectURL s1).2
      { s2 with app := { s2.app with loading := false } }
    | none =>
      let s2 := setError (some zipFailMsg) s1
      { s2 with app := { s2.app with loading := false } }

theorem foldl_revoke {α : Type} (g : α → Option Nat) :
    ∀ (l : List α) (s : Sys),
      l.foldl (fun acc x => revokeObjectURL (g x) acc) s
        = { s with revoked := s.revoked ++ l.map g } := by
  intro l
  induction l with
  | nil => intro s; simp
  | cons a t ih =>
      intro s
      rw [List.foldl_cons, ih]
      simp [revokeObjectURL, List.append_assoc]

theorem clearAll_eq (s : Sys) :
    clearAll s =
      { s with
        app :=
          { s.app with
            heicFiles := [], convertedImages := [], error := none },
        revoked :=
          s.revoked ++ s.app.heicFiles.map Item.thumbnail
            ++ s.app.convertedImages.map (fun img => some img.url) } := by
  simp [clearAll, foldl_revoke, List.append_assoc]

/-- Claim C9: clearing the batch is idempotent — for every state, clearing
twice yields exactly the state of clearing once, and the second clear makes
no revoke call (its revoke trace is unchanged), so no handle is revoked a
second time by it. -/
theorem c9_clear_idempotent (s : Sys) :
    clearAll (clearAll s) = clearAll s ∧
      (clearAll (clearAll s)).revoked = (clearAll s).revoked := by
  have h : clearAll (clearAll s) = clearAll s := by
    rw [clearAll_eq s, clearAll_eq]
    simp
  exact ⟨h, by rw [h]⟩

theorem validateError_none (f : JFile) :
    validateError f = none ↔ fileAccepted f = true := by
  unfold validateError fileAccepted
  by_cases ht : f.type ∈ allowedTypes
  · by_cases hs : f.size > MAX_FILE_SIZE_MB * 1024 * 1024
    · simp [ht, hs, Nat.not_le_of_lt hs]
    · simp [ht, hs, Nat.le_of_not_lt hs]
  · simp [ht]

theorem runValidate_fst (files : List JFile) :
    ∀ e, (runValidate files e).1 = files.filter fileAccepted := by
  induction files with
  | nil => intro e; simp [runValidate]
  | cons f rest ih =>
      intro e
      by_cases h : fileAccepted f = true
      · have hv : validateError f = none := (validateError_none f).2 h
        simp [runValidate, hv, List.filter_cons, h, ih]
      · have hv : ¬ validateError f = none := fun hc =>
          h ((validateError_none f).1 hc)
        cases hve : validateError f with
        | none => exact absurd hve hv
        | some m =>
            simp [runValidate, hve, List.filter_cons,
              Bool.of_not_eq_true h, ih]

theorem thumbLoop_file (h2a : Heic2Any) :
    ∀ (fs : List JFile) (s : Sys),
      (thumbLoop h2a fs s).1.map Item.file = fs := by
  intro fs
  induction fs with
  | nil => intro s; simp [thumbLoop]
  | cons f rest ih =>
      intro s
      cases ho : h2a f mimeJpeg 2 with
      | some b => simp only [thumbLoop, ho]; simp [ih]
      | none => simp only [thumbLoop, ho]; simp [ih]

theorem thumbLoop_app (h2a : Heic2Any) :
    ∀ (fs : List JFile) (s : Sys),
      (thumbLoop h2a fs s).2.app = s.app := by
  intro fs
  induction fs with
  | nil => intro s; simp [thumbLoop]
  | cons f rest ih =>
      intro s
      cases ho : h2a f mimeJpeg 2 with
      | some b => simp only [thumbLoop, ho]; simp [ih, createObjectURL]
      | none => simp only [thumbLoop, ho]; simp [ih]

/-- Claim C4: a candidate file is rejected exactly when its declared media
type is outside the allow-list — which contains the primary identifiers
`image/heic`, `image/heif` and the vendor-prefixed `image/x-heic`,
`image/x-heif`, compared as exact (case-sensitive) strings — or its byte
length exceeds the maximum; and after any `handleFileChange` the accepted
list consists of the previous files followed by exactly the candidates that
pass the filter, so a rejected file never enters it. -/
theorem c4_validation_characterization :
    (("image/heic".toList) ∈ allowedTypes ∧
     ("image/heif".toList) ∈ allowedTypes ∧
     ("image/x-heic".toList) ∈ allowedTypes ∧
     ("image/x-heif".toList) ∈ allowedTypes) ∧
    (∀ f : JFile, fileAccepted f = false ↔
        f.type ∉ allowedTypes ∨ MAX_FILE_SIZE_MB * 1024 * 1024 < f.size) ∧
    (∀ (h2a : Heic2Any) (files : List JFile) (s : Sys),
        (handleFileChange h2a files s).app.heicFiles.map Item.file
          = s.app.heicFiles.map Item.file ++ files.filter fileAccepted) := by
  refine ⟨by simp [allowedTypes], fun f => ?_, fun h2a files s => ?_⟩
  · unfold fileAccepted
    by_cases ht : f.type ∈ allowedTypes
    · by_cases hs : f.size ≤ MAX_FILE_SIZE_MB * 1024 * 1024
      · simp [ht, hs, Nat.not_lt_of_le hs]
      · simp [ht, hs, Nat.lt_of_not_le hs]
    · simp [ht]
  · simp only [handleFileChange]
    cases hv : (runValidate files none).2 with
    | none =>
        simp [hv, thumbLoop_app, thumbLoop_file, setError, runValidate_fst]
    | some m =>
        simp [hv, thumbLoop_app, thumbLoop_file, setError, runValidate_fst]

/-- Claim C7: a file whose size is exactly the 25 * 1024 * 1024 byte
maximum and whose media type is allowed passes validation; a file one byte
over the maximum is rejected whatever its type. -/
theorem c7_size_boundary (f : JFile) :
    (f.size = MAX_FILE_SIZE_MB * 1024 * 1024 →
        f.type ∈ allowedTypes → fileAccepted f = true) ∧
    (f.size = MAX_FILE_SIZE_MB * 1024 * 1024 + 1 →
        fileAccepted f = false) := by
  constructor
  · intro hs ht
    simp [fileAccepted, ht, hs]
  · intro hs
    simp [fileAccepted, hs]

/-- Witness for C7 at concrete files: the 26214400-byte `image/heic` file is
accepted and the 26214401-byte one is rejected. -/
theorem c7_size_boundary_witness :
    fileAccepted { name := ("a.heic".toList), type := ("image/heic".toList),
                   size := 26214400 } = true ∧
    fileAccepted { name := ("a.heic".toList), type := ("image/heic".toList),
                   size := 26214401 } = false := by
  constructor
  · exact (c7_size_boundary _).1 (by decide) (by decide)
  · exact (c7_size_boundary _).2 (by decide)

/-- Whether the codec succeeds on an item under the full-quality conversion
call made by `convertImages`. -/
def convOk (h2a : Heic2Any) (fmt : JStr) (it : Item) : Bool :=
  (h2a it.file (imageSlash ++ fmt) 9).isSome

theorem convertLoop_names (h2a : Heic2Any) (dateNow : Nat → Nat)
    (fmt : JStr) :
    ∀ (items : List Item) (s : Sys),
      (convertLoop h2a dateNow fmt items s).1.map ConvertedImage.name
        = (items.filter (convOk h2a fmt)).map
            (fun it => replaceSourceExt it.file.name fmt) := by
  intro items
  induction items with
  | nil => intro s; simp [convertLoop]
  | cons it rest ih =>
      intro s
      cases ho : h2a it.file (imageSlash ++ fmt) 9 with
      | some b =>
          simp only [convertLoop, ho]
          simp [ih, List.filter_cons, convOk, ho]
      | none =>
          simp only [convertLoop, ho]
          simp [ih, List.filter_cons, convOk, ho]

theorem convertLoop_pres (h2a : Heic2Any) (dateNow : Nat → Nat)
    (fmt : JStr) :
    ∀ (items : List Item) (s : Sys),
      (convertLoop h2a dateNow fmt items s).2.revoked = s.revoked ∧
      (convertLoop h2a dateNow fmt items s).2.app.heicFiles
        = s.app.heicFiles ∧
      (convertLoop h2a dateNow fmt items s).2.app.convertedImages
        = s.app.convertedImages ∧
      (convertLoop h2a dateNow fmt items s).2.app.outputFormat
        = s.app.outputFormat ∧
      (convertLoop h2a dateNow fmt items s).2.app.loading = s.app.loading := by
  intro items
  induction items with
  | nil => intro s; simp [convertLoop]
  | cons it rest ih =>
      intro s
      cases ho : h2a it.file (imageSlash ++ fmt) 9 with
      | some b =>
          simp only [convertLoop, ho]
          simpa [createObjectURL] using ih _
      | none =>
          simp only [convertLoop, ho]
          simpa [setError] using ih _

theorem convertLoop_error (h2a : Heic2Any) (dateNow : Nat → Nat)
    (fmt : JStr) :
    ∀ (items : List Item) (s : Sys),
      ((items.filter (fun it => !(convOk h2a fmt it))) = [] →
          (convertLoop h2a dateNow fmt items s).2.app.error = s.app.error) ∧
      ((items.filter (fun it => !(convOk h2a fmt it))) ≠ [] →
          ∃ it, it ∈ items.filter (fun it => !(convOk h2a fmt it)) ∧
            (convertLoop h2a dateNow fmt items s).2.app.error
              = some (failMsg it.file.name)) := by
  intro items
  induction items with
  | nil => intro s; simp [convertLoop]
  | cons it rest ih =>
      intro s
      cases ho : h2a it.file (imageSlash ++ fmt) 9 with
      | some b =>
          have hok : convOk h2a fmt it = true := by simp [convOk, ho]
          constructor
          · intro hnone
            rw [List.filter_cons, if_neg (by simp [hok])] at hnone
            simp only [convertLoop, ho]
            have hrec := (ih { (createObjectURL s).2 with
              timeCtr := (createObjectURL s).2.timeCtr + 1 }).1 hnone
            simpa [createObjectURL] using hrec
          · intro hne
            rw [List.filter_cons, if_neg (by simp [hok])] at hne
            obtain ⟨w, hw, he⟩ := (ih { (createObjectURL s).2 with
              timeCtr := (createObjectURL s).2.timeCtr + 1 }).2 hne
            refine ⟨w, ?_, ?_⟩
            · rw [List.filter_cons, if_neg (by simp [hok])]
              exact hw
            · simp only [convertLoop, ho]
              simpa [createObjectURL] using he
      | none =>
          have hok : convOk h2a fmt it = false := by simp [convOk, ho]
          constructor
          · intro hnone
            rw [List.filter_cons, if_pos (by simp [hok])] at hnone
            exact absurd hnone (by simp)
          · intro _
            by_cases hr : rest.filter (fun it => !(convOk h2a fmt it)) = []
            · refine ⟨it, ?_, ?_⟩
              · rw [List.filter_cons, if_pos (by simp [hok])]
                exact List.mem_cons_self it _
              · simp only [convertLoop, ho]
                have := (ih (setError (some (failMsg it.file.name)) s)).1 hr
                simpa [setError] using this
            · obtain ⟨w, hw, he⟩ :=
                (ih (setError (some (failMsg it.file.name)) s)).2 hr
              refine ⟨w, ?_, ?_⟩
              · rw [List.filter_cons, if_pos (by simp [hok])]
                exact List.mem_cons_of_mem it hw
              · simp only [convertLoop, ho]
                exact he

theorem convertLoop_mem (h2a : Heic2Any) (dateNow : Nat → Nat)
    (fmt : JStr) :
    ∀ (items : List Item) (s : Sys) (img : ConvertedImage),
      img ∈ (convertLoop h2a dateNow fmt items s).1 →
        img.name = replaceSourceExt img.originalFile.name fmt ∧
          img.originalFile ∈ items.map Item.file := by
  intro items
  induction items with
  | nil => intro s img h; simp [convertLoop] at h
  | cons it rest ih =>
      intro s img h
      cases ho : h2a it.file (imageSlash ++ fmt) 9 with
      | some b =>
          rw [convertLoop] at h
          rw [ho] at h
          rcases List.mem_cons.1 h with heq | hmem
          · subst heq
            exact ⟨rfl, by simp⟩
          · obtain ⟨h1, h2⟩ := ih _ img hmem
            exact ⟨h1, by simp [h2]⟩
      | none =>
          rw [convertLoop] at h
          rw [ho] at h
          obtain ⟨h1, h2⟩ := ih _ img h
          exact ⟨h1, by simp [h2]⟩

/-- The state from which the conversion loop of `convertImages` starts:
loading set, error cleared, converted list emptied.  Definitionally equal
to the state built inline by `convertImages`. -/
def runInit (s : Sys) : Sys :=
  { s with app :=
      { s.app with loading := true, error := none, convertedImages := [] } }

theorem convertLoop_length (h2a : Heic2Any) (dateNow : Nat → Nat)
    (fmt : JStr) (items : List Item) (s : Sys) :
    (convertLoop h2a dateNow fmt items s).1.length
      = (items.filter (convOk h2a fmt)).length := by
  have h := congrArg List.length (convertLoop_names h2a dateNow fmt items s)
  simpa using h

/-- An always-succeeding codec oracle for concrete runs. -/
def okOracle : Heic2Any := fun _ _ _ => some 0

/-- A constant time oracle for concrete runs. -/
def dn0 : Nat → Nat := fun _ => 0

/-- The freshly mounted component: empty lists, `jpeg` output format. -/
def sys0 : Sys :=
  { app := { heicFiles := [], convertedImages := [],
             outputFormat := ("jpeg".toList), loading := false,
             error := none },
    nextUrl := 0, created := [], revoked := [], timeCtr := 0 }

/-- A well-formed 1024-byte HEIC candidate. -/
def fileA : JFile :=
  { name := ("a.heic".toList), type := ("image/heic".toList), size := 1024 }

/-- A HEIC candidate on which the codec will be made to fail. -/
def fileBad : JFile :=
  { name := ("bad.heic".toList), type := ("image/heic".toList), size := 5 }

/-- A codec oracle that rejects exactly `bad.heic`. -/
def failOracle : Heic2Any :=
  fun f _ _ => if f.name = ("bad.heic".toList) then none else some 0

/-- The accepted item wrapping `fileA` (thumbnail generation failed). -/
def itemA : Item := { file := fileA, thumbnail := none }

/-- The accepted item wrapping `fileBad` (thumbnail generation failed). -/
def itemBad : Item := { file := fileBad, thumbnail := none }

/-- A populated state holding one good and one bad accepted file. -/
def sysC5 : Sys :=
  { sys0 with app := { sys0.app with heicFiles := [itemA, itemBad] } }

/-- Claim C5: over any batch of N accepted files of which K fail
conversion, `convertImages` produces exactly N − K converted items (each
failure is skipped, the loop never aborts), and when K ≥ 1 the resulting
error message is the failure message of one of the failing files. -/
theorem c5_best_effort_batch (h2a : Heic2Any) (dateNow : Nat → Nat)
    (s : Sys) :
    (convertImages h2a dateNow s).app.convertedImages.length
      = s.app.heicFiles.length
        - (s.app.heicFiles.filter
            (fun it => !(convOk h2a s.app.outputFormat it))).length ∧
    ((s.app.heicFiles.filter
        (fun it => !(convOk h2a s.app.outputFormat it))) ≠ [] →
      ∃ it, it ∈ s.app.heicFiles.filter
            (fun it => !(convOk h2a s.app.outputFormat it)) ∧
        (convertImages h2a dateNow s).app.error
          = some (failMsg it.file.name)) := by
  constructor
  · have hsum := List.length_eq_length_filter_add
      (l := s.app.heicFiles) (convOk h2a s.app.outputFormat)
    simp only [convertImages]
    simp [convertLoop_length]
    omega
  · intro hne
    obtain ⟨w, hw, he⟩ :=
      (convertLoop_error h2a dateNow s.app.outputFormat s.app.heicFiles
        (runInit s)).2 hne
    refine ⟨w, hw, ?_⟩
    simp only [convertImages]
    simpa [runInit] using he

/-- Witness for C5: on a batch of two accepted files where exactly
`bad.heic` fails, one converted item is produced and the error message
names a failing file. -/
theorem c5_best_effort_batch_witness :
    (convertImages failOracle dn0 sysC5).app.convertedImages.length = 1 ∧
    ∃ it, it ∈ sysC5.app.heicFiles.filter
          (fun it => !(convOk failOracle sysC5.app.outputFormat it)) ∧
      (convertImages failOracle dn0 sysC5).app.error
        = some (failMsg it.file.name) := by
  have h := c5_best_effort_batch failOracle dn0 sysC5
  refine ⟨?_, h.2 (by decide)⟩
  rw [h.1]
  decide

/-- A previously converted item whose handle (object URL 0) is live. -/
def imgPrev : ConvertedImage :=
  { id := [], name := ("a.jpeg".toList), url := 0, blob := 0,
    originalFile := fileA }

/-- A state after a completed first conversion run: one outstanding
converted handle, no accepted files left to convert. -/
def sysC3 : Sys :=
  { app := { heicFiles := [], convertedImages := [imgPrev],
             outputFormat := ("jpeg".toList), loading := false,
             error := none },
    nextUrl := 1, created := [0], revoked := [], timeCtr := 0 }

/-- Model of the cleanup closure returned by the `useEffect` at lines
15-20: it closes over the dependency values (`heicFiles`,
`convertedImages`) that were current when the effect was registered, and
revokes every thumbnail handle and every converted item's URL among them.
React fires the outstanding effect's cleanup whenever the
`[heicFiles, convertedImages]` dependency array changes, before
registering the new effect. -/
def effectCleanup (deps : List Item × List ConvertedImage)
    (s : Sys) : Sys :=
  let s1 := deps.1.foldl (fun acc it => revokeObjectURL it.thumbnail acc) s
  deps.2.foldl (fun acc img => revokeObjectURL (some img.url) acc) s1

theorem effectCleanup_eq (d : List Item × List ConvertedImage) (s : Sys) :
    effectCleanup d s
      = { s with
          revoked :=
            s.revoked ++ d.1.map Item.thumbnail
              ++ d.2.map (fun img => some img.url) } := by
  simp [effectCleanup, foldl_revoke, List.append_assoc]

/-- The pre-loop state of a conversion run: the reset commit of
`convertImages` (loading set, error cleared, converted list emptied)
changes the `convertedImages` dependency, so the outstanding effect's
cleanup fires over the previous lists, revoking the previous thumbnail
handles and every previously converted item's URL. -/
def runStart (s : Sys) : Sys :=
  effectCleanup (s.app.heicFiles, s.app.convertedImages) (runInit s)

/-- A full `convertImages` run as the single-threaded model linearizes it:
the reset commit and the effect cleanup its dependency change fires
(`runStart`), then the sequential conversion loop (each codec call
suspends, so the commit's cleanup has already run before any conversion
resolves), then the publish commit and the cleanup of the effect
registered at the reset commit, whose dependencies were the unchanged
`heicFiles` and the emptied converted list. -/
def convertImagesRun (h2a : Heic2Any) (dateNow : Nat → Nat)
    (s : Sys) : Sys :=
  let r := convertLoop h2a dateNow s.app.outputFormat s.app.heicFiles
    (runStart s)
  let s2 := { r.2 with app :=
      { r.2.app with convertedImages := r.1, loading := false } }
  effectCleanup (s.app.heicFiles, []) s2

/-- Claim C3: when a conversion run starts, emptying the converted list
fires the outstanding effect's cleanup, which revokes every previously
converted item's handle, and the converted list is cleared — both already
hold in the state the conversion loop starts from; the remainder of the
run appends only thumbnail revocations to the trace, so each previously
converted handle is revoked exactly once during the run and repeated runs
leak no converted handles. -/
theorem c3_run_start_revokes_previous (h2a : Heic2Any)
    (dateNow : Nat → Nat) (s : Sys) :
    (∀ img ∈ s.app.convertedImages,
        some img.url ∈ (runStart s).revoked) ∧
    (runStart s).app.convertedImages = [] ∧
    (convertImagesRun h2a dateNow s).revoked
      = (runStart s).revoked ++ s.app.heicFiles.map Item.thumbnail := by
  refine ⟨?_, ?_, ?_⟩
  · intro img hmem
    unfold runStart
    rw [effectCleanup_eq]
    simp only [runInit, List.mem_append, List.mem_map]
    refine Or.inr ?_
    exact ⟨img, hmem, rfl⟩
  · unfold runStart
    rw [effectCleanup_eq]
    rfl
  · have hp := (convertLoop_pres h2a dateNow s.app.outputFormat
      s.app.heicFiles (runStart s)).1
    simp only [convertImagesRun]
    rw [effectCleanup_eq]
    simp [hp]

/-- Witness for C3 at a concrete state with one previously converted item:
its handle is revoked by the time the loop starts, the list is cleared,
and the run's final revoke trace adds nothing further for it. -/
theorem c3_run_start_revokes_previous_witness :
    some imgPrev.url ∈ (runStart sysC3).revoked ∧
    (runStart sysC3).app.convertedImages = [] ∧
    (convertImagesRun okOracle dn0 sysC3).revoked
      = (runStart sysC3).revoked
        ++ sysC3.app.heicFiles.map Item.thumbnail := by
  have h := c3_run_start_revokes_previous okOracle dn0 sysC3
  exact ⟨h.1 imgPrev (by decide), h.2.1, h.2.2⟩

theorem replaceSourceExt_eq {n : JStr} (h : hasSourceExt n = true)
    (fmt : JStr) :
    replaceSourceExt n fmt = stripSourceExt n ++ '.' :: fmt := by
  unfold replaceSourceExt
  rw [if_pos h]

theorem endsWith_append (p ext : JStr) : endsWith (p ++ ext) ext = true := by
  unfold endsWith
  rw [List.reverse_append, ← List.length_reverse ext, List.take_left]
  simp

theorem endsWithCI_append (p c ext : JStr)
    (h : (c.map Char.toLower).reverse.length = ext.length) :
    endsWithCI (p ++ c) ext
      = decide ((c.map Char.toLower).reverse = ext.reverse) := by
  unfold endsWithCI toLowerStr
  rw [List.map_append, List.reverse_append, ← h, List.take_left]

theorem endsWithCI_head_ne (p c ext : JStr) {a b : Char} {A E : List Char}
    (hA : (c.map Char.toLower).reverse = a :: A)
    (hE : ext.reverse = b :: E) (hab : a ≠ b) :
    endsWithCI (p ++ c) ext = false := by
  unfold endsWithCI toLowerStr
  apply decide_eq_false
  intro hEq
  rw [List.map_append, List.reverse_append, hA, hE] at hEq
  have hlen : ext.length = E.length + 1 := by
    have hl := congrArg List.length hE
    simpa using hl
  rw [hlen, List.cons_append, List.take_succ_cons] at hEq
  injection hEq with h1 _
  exact hab h1

theorem hasSourceExt_append_jpeg (p : JStr) :
    hasSourceExt (p ++ ('.' :: ("jpeg".toList))) = false := by
  unfold hasSourceExt
  rw [endsWithCI_append p ('.' :: ("jpeg".toList)) (".heic".toList)
        (by decide),
      endsWithCI_append p ('.' :: ("jpeg".toList)) (".heif".toList)
        (by decide)]
  decide

theorem hasSourceExt_append_png (p : JStr) :
    hasSourceExt (p ++ ('.' :: ("png".toList))) = false := by
  unfold hasSourceExt
  have hA : (('.' :: ("png".toList)).map Char.toLower).reverse
      = 'g' :: ['n', 'p', '.'] := by decide
  have hE1 : (".heic".toList).reverse = 'c' :: ['i', 'e', 'h', '.'] := by
    decide
  have hE2 : (".heif".toList).reverse = 'f' :: ['i', 'e', 'h', '.'] := by
    decide
  rw [endsWithCI_head_ne p _ _ hA hE1 (by decide),
      endsWithCI_head_ne p _ _ hA hE2 (by decide)]
  rfl

/-- Claim C2 (amended): for every converted item produced by a run whose
selected output format is `jpeg` or `png`, if the originating file's name
ends (case-insensitively) in the source extension `.heic` or `.heif`, then
the output name ends in the target format's extension and no longer ends in
the source extension; a name without the source extension is left
unchanged, so the unrestricted claim fails (see the counterexample). -/
theorem c2_output_name_extension (h2a : Heic2Any) (dateNow : Nat → Nat)
    (s : Sys) (img : ConvertedImage)
    (hfmt : s.app.outputFormat = ("jpeg".toList) ∨
      s.app.outputFormat = ("png".toList))
    (hmem : img ∈ (convertImages h2a dateNow s).app.convertedImages)
    (hext : hasSourceExt img.originalFile.name = true) :
    endsWith img.name ('.' :: s.app.outputFormat) = true ∧
      hasSourceExt img.name = false := by
  have hmem' : img ∈ (convertLoop h2a dateNow s.app.outputFormat
      s.app.heicFiles (runInit s)).1 := by
    simpa [convertImages, runInit] using hmem
  obtain ⟨hname, _⟩ := convertLoop_mem h2a dateNow s.app.outputFormat
    s.app.heicFiles (runInit s) img hmem'
  constructor
  · rw [hname, replaceSourceExt_eq hext]
    exact endsWith_append _ _
  · rcases hfmt with hf | hf
    · rw [hname, hf, replaceSourceExt_eq hext]
      exact hasSourceExt_append_jpeg _
    · rw [hname, hf, replaceSourceExt_eq hext]
      exact hasSourceExt_append_png _

/-- A populated state holding the single accepted file `a.heic`. -/
def sysA : Sys :=
  { sys0 with app := { sys0.app with heicFiles := [itemA] } }

/-- The converted item that converting `sysA` produces. -/
def imgA : ConvertedImage :=
  { id := ("a.heic-0".toList), name := ("a.jpeg".toList), url := 0,
    blob := 0, originalFile := fileA }

/-- Witness for C2 (amended) at a concrete run: converting `a.heic` to
`jpeg` yields the name `a.jpeg`, which ends in `.jpeg` and not in the
source extension. -/
theorem c2_output_name_extension_witness :
    endsWith imgA.name ('.' :: sysA.app.outputFormat) = true ∧
      hasSourceExt imgA.name = false :=
  c2_output_name_extension okOracle dn0 sysA imgA (Or.inl (by decide))
    (by decide) (by decide)

/-- An accepted HEIC file whose display name has no extension at all. -/
def filePhoto : JFile :=
  { name := ("photo".toList), type := ("image/heic".toList), size := 10 }

/-- The accepted item wrapping `filePhoto`. -/
def itemPhoto : Item := { file := filePhoto, thumbnail := none }

/-- A populated state holding only the extensionless file. -/
def sysPhoto : Sys :=
  { sys0 with app := { sys0.app with heicFiles := [itemPhoto] } }

/-- Claim C2 counterexample: the file named `photo` converts successfully,
yet its output name is `photo`, which does not end in the selected target
extension `.jpeg` — so the claim does not hold for every input file name. -/
theorem c2_counterexample :
    (convertImages okOracle dn0 sysPhoto).app.convertedImages.map
        ConvertedImage.name = [("photo".toList)] ∧
    endsWith ("photo".toList) ('.' :: sysPhoto.app.outputFormat) = false := by
  decide

/-- An accepted `a.heif` file, colliding with `a.heic` after replacement. -/
def fileAheif : JFile :=
  { name := ("a.heif".toList), type := ("image/heif".toList), size := 10 }

/-- The accepted item wrapping `fileAheif`. -/
def itemAheif : Item := { file := fileAheif, thumbnail := none }

/-- A batch holding `a.heic` and `a.heif` together. -/
def sysC8 : Sys :=
  { sys0 with app := { sys0.app with heicFiles := [itemA, itemAheif] } }

/-- Claim C8 counterexample: converting the batch `a.heic`, `a.heif` (both
succeeding) produces the output names `a.jpeg`, `a.jpeg` — the names of one
run are not pairwise distinct. -/
theorem c8_counterexample :
    (convertImages okOracle dn0 sysC8).app.convertedImages.map
        ConvertedImage.name = [("a.jpeg".toList), ("a.jpeg".toList)] ∧
    ¬ ((convertImages okOracle dn0 sysC8).app.convertedImages.map
        ConvertedImage.name).Pairwise (· ≠ ·) := by
  constructor
  · decide
  · decide

/-- Claim C8 (amended): within one conversion run the output names are
pairwise distinct provided every accepted file's name carries the source
extension and the names with that extension stripped are pairwise distinct;
the code itself enforces no uniqueness (`a.heic` and `a.heif` collide, see
the counterexample), and the archive bundler deduplicates nothing. -/
theorem c8_names_distinct_of_bases_distinct (h2a : Heic2Any)
    (dateNow : Nat → Nat) (s : Sys)
    (hext : ∀ it ∈ s.app.heicFiles, hasSourceExt it.file.name = true)
    (hdist : (s.app.heicFiles.map
        (fun it => stripSourceExt it.file.name)).Pairwise (· ≠ ·)) :
    ((convertImages h2a dateNow s).app.convertedImages.map
        ConvertedImage.name).Pairwise (· ≠ ·) := by
  have hn : (convertImages h2a dateNow s).app.convertedImages.map
      ConvertedImage.name
      = (s.app.heicFiles.filter (convOk h2a s.app.outputFormat)).map
          (fun it => replaceSourceExt it.file.name s.app.outputFormat) := by
    simp only [convertImages]
    simpa [runInit] using convertLoop_names h2a dateNow s.app.outputFormat
      s.app.heicFiles (runInit s)
  rw [hn, List.pairwise_map]
  have hsub : (s.app.heicFiles.filter
      (convOk h2a s.app.outputFormat)).Sublist s.app.heicFiles :=
    List.filter_sublist _
  have hdist2 : (s.app.heicFiles.filter
      (convOk h2a s.app.outputFormat)).Pairwise
        (fun x y => stripSourceExt x.file.name ≠ stripSourceExt y.file.name) :=
    List.Pairwise.sublist hsub (List.pairwise_map.mp hdist)
  refine List.Pairwise.imp_of_mem ?_ hdist2
  intro x y hx hy hne hEq
  have hxext : hasSourceExt x.file.name = true :=
    hext x (List.Sublist.mem hx hsub)
  have hyext : hasSourceExt y.file.name = true :=
    hext y (List.Sublist.mem hy hsub)
  rw [replaceSourceExt_eq hxext, replaceSourceExt_eq hyext] at hEq
  exact hne (List.append_cancel_right hEq)

/-- A second accepted HEIC file with a distinct base name. -/
def fileB : JFile :=
  { name := ("b.heic".toList), type := ("image/heic".toList), size := 7 }

/-- The accepted item wrapping `fileB`. -/
def itemB : Item := { file := fileB, thumbnail := none }

/-- A batch holding `a.heic` and `b.heic`. -/
def sysAB : Sys :=
  { sys0 with app := { sys0.app with heicFiles := [itemA, itemB] } }

/-- Witness for C8 (amended): the batch `a.heic`, `b.heic` has distinct
stripped base names, and its run's output names are pairwise distinct. -/
theorem c8_names_distinct_of_bases_distinct_witness :
    ((convertImages okOracle dn0 sysAB).app.convertedImages.map
        ConvertedImage.name).Pairwise (· ≠ ·) :=
  c8_names_distinct_of_bases_distinct okOracle dn0 sysAB (by decide)
    (by decide)

/-- Claim C1, evaluated at the failing input: the sequence
add `a.heic` → convert → Clear All, with thumbnail and conversion both
succeeding, performs 4 `createObjectURL` calls but only 2
`revokeObjectURL` calls — the two handles allocated inside the diagnostic
`console.log` lines of `handleFileChange` are never stored and never
revoked, so the revoke count cannot equal the create count. -/
theorem c1_handle_accounting_bug :
    (clearAll (convertImages okOracle dn0
        (handleFileChange okOracle [fileA] sys0))).created.length = 4 ∧
    (clearAll (convertImages okOracle dn0
        (handleFileChange okOracle [fileA] sys0))).revoked.length = 2 := by
  decide

/-- An archive writer that always succeeds. -/
def zipOK : ZipGen := fun _ => some 7

/-- An archive writer that always fails. -/
def zipFailGen : ZipGen := fun _ => none

/-- A state with one converted item and a stale error message. -/
def sysStale : Sys :=
  { sysC3 with app := { sysC3.app with error := some ("old".toList) } }

/-- Claim C6 counterexample: with a stale error present, running the
download-all bundling operation (non-empty converted list, archive writer
succeeds) leaves the stale message in place — `downloadAllImages` does not
clear the error at its start. -/
theorem c6_counterexample :
    sysStale.app.error = some ("old".toList) ∧
    (downloadAllImages zipOK sysStale).app.error
      = some ("old".toList) := by
  decide

/-- Claim C6 (amended): adding files and converting clear the error message
at their start (their outcome is independent of the previous error), but
the bundling operation does not: when the converted list is empty or the
archive writer succeeds the previous message survives unchanged, and when
the archive writer fails it is overwritten by the zip failure message, so
within these operations the most recent write wins. -/
theorem c6_error_clearing (h2a : Heic2Any) (dateNow : Nat → Nat)
    (zipGen : ZipGen) (s : Sys) (files : List JFile) (e : Option JStr) :
    handleFileChange h2a files (setError e s)
        = handleFileChange h2a files s ∧
    convertImages h2a dateNow (setError e s)
        = convertImages h2a dateNow s ∧
    ((s.app.convertedImages = [] ∨ (zipGen (zipEntries s)).isSome = true) →
        (downloadAllImages zipGen s).app.error = s.app.error) ∧
    (s.app.convertedImages ≠ [] → zipGen (zipEntries s) = none →
        (downloadAllImages zipGen s).app.error = some zipFailMsg) := by
  refine ⟨rfl, rfl, ?_, ?_⟩
  · intro h
    by_cases hemp : s.app.convertedImages.length = 0
    · simp [downloadAllImages, hemp]
    · rcases h with hnil | hsome
      · exact absurd (by rw [hnil]; rfl) hemp
      · obtain ⟨c, hc⟩ := Option.isSome_iff_exists.mp hsome
        simp [downloadAllImages, hemp, hc, createObjectURL]
  · intro hne hzip
    have hlen : ¬ s.app.convertedImages.length = 0 := by
      rw [List.length_eq_zero]
      exact hne
    simp [downloadAllImages, hlen, hzip, setError]

/-- Witness for C6 (amended) at concrete states: a successful bundling run
keeps the stale error, and a failing one sets the zip failure message. -/
theorem c6_error_clearing_witness :
    (downloadAllImages zipOK sysStale).app.error = sysStale.app.error ∧
    (downloadAllImages zipFailGen sysStale).app.error = some zipFailMsg := by
  refine ⟨(c6_error_clearing okOracle dn0 zipOK sysStale [] none).2.2.1
      (Or.inr (by decide)),
    (c6_error_clearing okOracle dn0 zipFailGen sysStale [] none).2.2.2
      (by decide) (by decide)⟩

/-- Claim C10: bundling is atomic with respect to pipeline state — when the
converted list is empty `downloadAllImages` changes nothing at all, and
when the archive writer fails the whole resulting state equals the input
state with only the error message set to the zip failure message and the
loading flag reset; in particular the accepted list, the converted list and
the create/revoke handle traces are untouched. -/
theorem c10_bundle_atomic (zipGen : ZipGen) (s : Sys) :
    (s.app.convertedImages = [] → downloadAllImages zipGen s = s) ∧
    (s.app.convertedImages ≠ [] → zipGen (zipEntries s) = none →
      downloadAllImages zipGen s
        = { s with app :=
              { s.app with
                error := some zipFailMsg, loading := false } }) := by
  constructor
  · intro hemp
    simp [downloadAllImages, hemp]
  · intro hne hzip
    have hlen : ¬ s.app.convertedImages.length = 0 := by
      rw [List.length_eq_zero]
      exact hne
    simp [downloadAllImages, hlen, hzip, setError]

/-- Witness for C10 at concrete states: the empty state is returned
untouched, and a failing archive writer changes only the error and loading
fields of a populated state. -/
theorem c10_bundle_atomic_witness :
    downloadAllImages zipFailGen sys0 = sys0 ∧
    downloadAllImages zipFailGen sysC3
      = { sysC3 with app :=
            { sysC3.app with
              error := some zipFailMsg, loading := false } } := by
  refine ⟨(c10_bundle_atomic zipFailGen sys0).1 (by decide),
    (c10_bundle_atomic zipFailGen sysC3).2 (by decide) (by decide)⟩

end ImgConv
